import Mathlib

/-!
Verification of `src/core/autocomplete/constructPrompt.ts`: the context
assembly and multiline-decision engine for tab autocompletion.  TypeScript
values are embedded shallowly: JavaScript strings become `String`, JS array
and string operations are modelled character-exactly (including `slice`
with negative indices and `indexOf` returning `-1`), JS numbers appearing
in budget arithmetic become `Rat`, and fallible steps become `Option`.
External collaborators (ranker, matcher, scope lookup, definition lookup,
token counter) are passed in as function parameters, mirroring the module
imports of the source file.
-/

attribute [local semireducible] Rat.mul Rat.inv Rat.add Rat.sub

/-- One external code fragment: `{filepath, contents}` (`FileWithContents`
in the source). -/
structure FileWithContents where
  filepath : String
  contents : String
  deriving DecidableEq, Repr

/-- A recently edited range: `RangeInFileWithContents` from
`core/commands/util`.  Only `filepath` and `contents` are read by
`constructAutocompletePrompt`; the position fields are carried along. -/
structure RangeInFileWithContents where
  filepath : String
  contents : String
  startLine : Nat
  startCharacter : Nat
  endLine : Nat
  endCharacter : Nat
  deriving DecidableEq, Repr

/-- A syntax-tree node as used by the source: its `type`, its
`startPosition` (`row`/`column`) and its `text`. -/
structure SyntaxNode where
  type : String
  startRow : Nat
  startCol : Nat
  text : String
  deriving DecidableEq, Repr

/-- Per-language metadata needed for formatting; the source reads the
single-line `comment` token. -/
structure AutocompleteLanguageInfo where
  name : String
  comment : String
  deriving DecidableEq, Repr

/-- The options record read by `constructAutocompletePrompt`.  Integer
options are `Nat`, fractional percentages are `Rat`. -/
structure TabAutocompleteOptions where
  slidingWindowSize : Nat
  slidingWindowPrefixPercentage : Rat
  maxPromptTokens : Nat
  prefixPercentage : Rat
  maxSuffixPercentage : Rat
  deriving DecidableEq, Repr

/-- The assembled result `{prefix, suffix, useFim, completeMultiline}`.
`prefix`/`suffix` are Lean keywords, so the fields are `prefixText` and
`suffixText`. -/
structure AssembledPrompt where
  prefixText : String
  suffixText : String
  useFim : Bool
  completeMultiline : Bool
  deriving DecidableEq, Repr

/-- The newline character, written by code point. -/
def newlineChar : Char := Char.ofNat 10

/-- The opening-brace character, written by code point. -/
def openBraceChar : Char := Char.ofNat 123

/-- The closing-brace character, written by code point. -/
def closeBraceChar : Char := Char.ofNat 125

/-- The dot character, written by code point. -/
def dotChar : Char := Char.ofNat 46

/-- The path-separator character, written by code point. -/
def slashChar : Char := Char.ofNat 47

/-- JavaScript `text.split(sep)` for a one-character separator: every
occurrence splits, empty pieces are kept, and the empty string yields one
empty piece. -/
def splitOnChar (c : Char) : List Char → List (List Char)
  | [] => [[]]
  | x :: xs =>
    match splitOnChar c xs with
    | [] => [[]]
    | g :: gs => if x = c then [] :: g :: gs else (x :: g) :: gs

/-- The lines of a string, as JavaScript `text.split("\n")` produces
them. -/
def linesOf (s : String) : List String :=
  (splitOnChar newlineChar s.toList).map String.mk

/-- JavaScript `lines.join("\n")`. -/
def joinLines (ls : List String) : String :=
  String.intercalate "\n" ls

/-- The last element of a split result (`split` never yields an empty
array; the `[]` case is unreachable). -/
def getLastPiece : List (List Char) → List Char
  | [] => []
  | [g] => g
  | _ :: g :: gs => getLastPiece (g :: gs)

/-- JavaScript `s.split(c).slice(-1)[0]`: the last piece of the split. -/
def lastSegmentOnChar (c : Char) (s : String) : String :=
  String.mk (getLastPiece (splitOnChar c s.toList))

/-- Index of the first occurrence of a character, if any. -/
def charIndexFrom (c : Char) : List Char → Option Nat
  | [] => none
  | x :: xs => if x = c then some 0 else (charIndexFrom c xs).map (· + 1)

/-- JavaScript `s.indexOf(c)` for a one-character needle: the first index,
or `-1` when absent. -/
def jsIndexOf (s : String) (c : Char) : Int :=
  match charIndexFrom c s.toList with
  | some i => (i : Int)
  | none => -1

/-- JavaScript `s.lastIndexOf(c)` for a one-character needle: the last
index, or `-1` when absent. -/
def jsLastIndexOf (s : String) (c : Char) : Int :=
  match charIndexFrom c s.toList.reverse with
  | some i => ((s.toList.length - 1 - i : Nat) : Int)
  | none => -1

/-- JavaScript `s.slice(start)`: a negative `start` counts from the end,
and out-of-range values clamp. -/
def jsSliceFrom (s : String) (start : Int) : String :=
  let len : Int := (s.toList.length : Int)
  let b : Int := if start < 0 then max (len + start) 0 else min start len
  String.mk (s.toList.drop b.toNat)

/-- JavaScript `s.slice(0, stop)`: a negative `stop` counts from the end,
and out-of-range values clamp. -/
def jsSliceTo (s : String) (stop : Int) : String :=
  let len : Int := (s.toList.length : Int)
  let e : Int := if stop < 0 then max (len + stop) 0 else min stop len
  String.mk (s.toList.take e.toNat)

/-- JavaScript `ToIntegerOrInfinity` on a finite number: truncation toward
zero, as applied by `slice` to a fractional argument. -/
def jsTrunc (q : Rat) : Int :=
  Int.sign q.num * ((q.num.natAbs / q.den : Nat) : Int)

/-- Modelled from the spec: the TypeScript language profile, the designated
default of the static table (`Typescript` in `core/autocomplete/languages`,
a file not under `src/`). -/
def Typescript : AutocompleteLanguageInfo := ⟨"typescript", "//"⟩

/-- Modelled from the spec: the Python language profile, a representative
non-default entry of the static table. -/
def Python : AutocompleteLanguageInfo := ⟨"python", "#"⟩

/-- Modelled from the spec: the process-wide read-only table resolving
extension to profile (`LANGUAGES` in `core/autocomplete/languages`, a file
not under `src/`), with representative entries. -/
def LANGUAGES : List (String × AutocompleteLanguageInfo) :=
  [("ts", Typescript), ("py", Python)]

/-- `languageForFilepath` from the source:
`LANGUAGES[filepath.split(".").slice(-1)[0]] || Typescript`. -/
def languageForFilepath (filepath : String) : AutocompleteLanguageInfo :=
  (LANGUAGES.lookup (lastSegmentOnChar dotChar filepath)).getD Typescript

/-- Modelled from the spec: `getBasename` from `core/util` (not under
`src/`), "using only the file's base name, not full path". -/
def getBasename (filepath : String) : String :=
  lastSegmentOnChar slashChar filepath

/-- `formatExternalSnippet` from the source: a `Path:` header comment, each
snippet line behind the comment token, and a trailing bare comment token,
joined by newlines. -/
def formatExternalSnippet (filepath : String) (snippet : String)
    (language : AutocompleteLanguageInfo) : String :=
  joinLines
    ([language.comment ++ " Path: " ++ getBasename filepath]
      ++ (linesOf snippet).map (fun line => language.comment ++ " " ++ line)
      ++ [language.comment])

/-- `BLOCK_TYPES` from the source. -/
def BLOCK_TYPES : List String := ["body", "statement_block"]

/-- The guard of the loop in `shouldCompleteMultiline`:
`BLOCK_TYPES.includes(node.type) && Math.abs(node.startPosition.row - cursorLine) <= 1`. -/
def isQualifyingBlock (cursorLine : Nat) (node : SyntaxNode) : Bool :=
  BLOCK_TYPES.contains node.type
    && decide (((node.startRow : Int) - (cursorLine : Int)).natAbs ≤ 1)

/-- `text.slice(text.indexOf("{") + 1)` from `shouldCompleteMultiline`. -/
def stripToOpenBrace (text : String) : String :=
  jsSliceFrom text (jsIndexOf text openBraceChar + 1)

/-- `text.slice(0, text.lastIndexOf("}"))` from `shouldCompleteMultiline`. -/
def stripFromCloseBrace (text : String) : String :=
  jsSliceTo text (jsLastIndexOf text closeBraceChar)

/-- JavaScript `s.trim()`: drop whitespace characters from both ends
(ASCII whitespace; the JS set also has exotic Unicode spaces, which the
inputs here do not contain). -/
def jsTrim (s : String) : String :=
  String.mk (((s.toList.dropWhile Char.isWhitespace).reverse.dropWhile
    Char.isWhitespace).reverse)

/-- The inner text of a block in `shouldCompleteMultiline`: strip up to and
including the first opening brace, strip from the last closing brace on,
then trim. -/
def blockInnerText (text : String) : String :=
  jsTrim (stripFromCloseBrace (stripToOpenBrace text))

/-- `text.split("\n").length === 1` applied to a block node's inner text. -/
def blockBodyIsOneLine (node : SyntaxNode) : Bool :=
  (splitOnChar newlineChar (blockInnerText node.text).toList).length == 1

/-- The body of the `for (let i = treePath.length - 1; i >= 0; i--)` loop
in `shouldCompleteMultiline`, expressed as forward recursion over the
reversed path: the first qualifying block decides, else continue; `false`
after the loop. -/
def multilineScan (cursorLine : Nat) : List SyntaxNode → Bool
  | [] => false
  | node :: rest =>
    if isQualifyingBlock cursorLine node then blockBodyIsOneLine node
    else multilineScan cursorLine rest

/-- `shouldCompleteMultiline` from the source: `true` for a length-one
path, otherwise the downward-index loop over the path. -/
def shouldCompleteMultiline (treePath : List SyntaxNode) (cursorLine : Nat) : Bool :=
  if treePath.length = 1 then true
  else multilineScan cursorLine treePath.reverse

/-- The `windowAroundCursor` expression of the source:
`fullPrefix.slice(-sws * pct) + fullSuffix.slice(sws * (1 - pct))`.
Note the suffix side passes the product as the one-argument `slice` start. -/
def windowAroundCursor (fullPrefix fullSuffix : String)
    (options : TabAutocompleteOptions) : String :=
  jsSliceFrom fullPrefix
      (jsTrunc (-((options.slidingWindowSize : Rat) * options.slidingWindowPrefixPercentage)))
    ++ jsSliceFrom fullSuffix
      (jsTrunc ((options.slidingWindowSize : Rat) * (1 - options.slidingWindowPrefixPercentage)))

/-- Modelled from the spec's words, for comparison with the source's
`windowAroundCursor`: the last `slidingWindowSize * slidingWindowPrefixPercentage`
characters of the prefix concatenated with the first
`slidingWindowSize * (1 - slidingWindowPrefixPercentage)` characters of the
suffix. -/
def specWindowAroundCursor (fullPrefix fullSuffix : String)
    (options : TabAutocompleteOptions) : String :=
  let fromEnd := (jsTrunc ((options.slidingWindowSize : Rat) * options.slidingWindowPrefixPercentage)).toNat
  let fromStart := (jsTrunc ((options.slidingWindowSize : Rat) * (1 - options.slidingWindowPrefixPercentage))).toNat
  String.mk (fullPrefix.toList.drop (fullPrefix.toList.length - fromEnd))
    ++ String.mk (fullSuffix.toList.take fromStart)

/-- The `recentlyEdited` pipeline of the source:
`ranges.map(async (r) => {...}).filter((s) => !!s)` then `Promise.all`.
The `filter` runs on the array of promises, and a `Promise` object is
always truthy, so the filter keeps every element; after `Promise.all` the
`null` results of failed scope lookups are still present and are pushed
into the snippet list (hence the element type `Option FileWithContents`). -/
def recentlyEditedSnippets
    (getScopeAroundRange : RangeInFileWithContents → Option Unit)
    (recentlyEditedRanges : List RangeInFileWithContents) :
    List (Option FileWithContents) :=
  (recentlyEditedRanges.map (fun r =>
      (getScopeAroundRange r).map (fun _ => (⟨r.filepath, r.contents⟩ : FileWithContents)))).filter
    (fun _ => true)

/-- The greedy top pruner on a line list: keep the whole list when its
join fits the budget, else drop the first line and repeat. -/
def pruneTopLines (countTokens : String → Nat) (maxTokens : Rat) :
    List String → List String
  | [] => []
  | l :: rest =>
    if (countTokens (joinLines (l :: rest)) : Rat) ≤ maxTokens then l :: rest
    else pruneTopLines countTokens maxTokens rest

/-- Modelled from the spec: `pruneLinesFromTop` from `core/llm/countTokens`
(not under `src/`): "removes whole lines from the stated end until the
result's token count <= maxTokens". -/
def pruneLinesFromTop (countTokens : String → Nat) (text : String)
    (maxTokens : Rat) : String :=
  joinLines (pruneTopLines countTokens maxTokens (linesOf text))

/-- The greedy bottom pruner, run over the reversed line list: keep the
whole list when its join (in original order) fits, else drop the last
line and repeat. -/
def pruneBottomAux (countTokens : String → Nat) (maxTokens : Rat) :
    List String → List String
  | [] => []
  | l :: rest =>
    if (countTokens (joinLines (l :: rest).reverse) : Rat) ≤ maxTokens then l :: rest
    else pruneBottomAux countTokens maxTokens rest

/-- The greedy bottom pruner on a line list. -/
def pruneBottomLines (countTokens : String → Nat) (maxTokens : Rat)
    (ls : List String) : List String :=
  (pruneBottomAux countTokens maxTokens ls.reverse).reverse

/-- Modelled from the spec: `pruneLinesFromBottom` from
`core/llm/countTokens` (not under `src/`): trailing lines are removed
until the result fits the budget. -/
def pruneLinesFromBottom (countTokens : String → Nat) (text : String)
    (maxTokens : Rat) : String :=
  joinLines (pruneBottomLines countTokens maxTokens (linesOf text))

/-- The budget-allocation and assembly tail of `constructAutocompletePrompt`
(the code after ranking): format the ranked snippets, prune the prefix from
the top under `maxPromptTokens * prefixPercentage - tokens(snippets)`,
prepend the snippets when any exist, prune the suffix from the bottom under
`min(maxPromptTokens - tokens(prefix), maxSuffixPercentage * maxPromptTokens)`,
and return the record with `useFim = true`. -/
def assembleStage (countTokens : String → Nat)
    (language : AutocompleteLanguageInfo) (options : TabAutocompleteOptions)
    (fullPrefix fullSuffix : String) (snippets : List FileWithContents)
    (completeMultiline : Bool) : AssembledPrompt :=
  let formattedSnippets :=
    joinLines (snippets.map (fun snippet =>
      formatExternalSnippet snippet.filepath snippet.contents language))
  let maxPrefixTokens : Rat :=
    (options.maxPromptTokens : Rat) * options.prefixPercentage
      - (countTokens formattedSnippets : Rat)
  let basicPrefix := pruneLinesFromTop countTokens fullPrefix maxPrefixTokens
  let finalPrefix :=
    if 0 < formattedSnippets.length then formattedSnippets ++ "\n" ++ basicPrefix
    else basicPrefix
  let maxSuffixTokens : Rat :=
    min ((options.maxPromptTokens : Rat) - (countTokens finalPrefix : Rat))
      (options.maxSuffixPercentage * (options.maxPromptTokens : Rat))
  let finalSuffix := pruneLinesFromBottom countTokens fullSuffix maxSuffixTokens
  ⟨finalPrefix, finalSuffix, true, completeMultiline⟩

/-- The ranking, formatting and assembly tail shared by both branches of
`constructAutocompletePrompt`.  A `null` smuggled into the snippet list
makes the per-snippet formatting throw (`snippet.filepath` on `null`), so
the whole request produces no result: `List.mapM id` over `Option`. -/
def finishPrompt
    (rankSnippets : List (Option FileWithContents) → String → List (Option FileWithContents))
    (countTokens : String → Nat) (language : AutocompleteLanguageInfo)
    (options : TabAutocompleteOptions) (fullPrefix fullSuffix window : String)
    (snippets : List (Option FileWithContents)) (completeMultiline : Bool) :
    Option AssembledPrompt :=
  ((rankSnippets snippets window).mapM id).map (fun ranked =>
    assembleStage countTokens language options fullPrefix fullSuffix ranked
      completeMultiline)

/-- `constructAutocompletePrompt` from the source, with the external
collaborators as parameters and the parse result (`getAst` plus
`getTreePathAtCursor`, which may fail) as an `Option` input.  The
`for (let node of treePath.reverse())` call-expression search reverses
`treePath` in place, so the later `shouldCompleteMultiline(treePath, ...)`
call receives the reversed (leaf-to-root) path: both uses below read
`reversedPath`. -/
def constructAutocompletePrompt
    (slidingWindowMatcher : List FileWithContents → String → Nat → Nat → List FileWithContents)
    (getScopeAroundRange : RangeInFileWithContents → Option Unit)
    (treePathAtCursor : Option (List SyntaxNode))
    (getDefinition : String → Nat → Nat → Option FileWithContents)
    (rankSnippets : List (Option FileWithContents) → String → List (Option FileWithContents))
    (countTokens : String → Nat)
    (filepath fullPrefix fullSuffix clipboardText : String)
    (language : AutocompleteLanguageInfo)
    (options : TabAutocompleteOptions)
    (recentlyEditedRanges : List RangeInFileWithContents)
    (recentlyEditedDocuments : List FileWithContents) : Option AssembledPrompt :=
  let window := windowAroundCursor fullPrefix fullSuffix options
  let slidingWindowMatches :=
    slidingWindowMatcher recentlyEditedDocuments window 3 options.slidingWindowSize
  let snippets0 : List (Option FileWithContents) :=
    slidingWindowMatches.map some
      ++ recentlyEditedSnippets getScopeAroundRange recentlyEditedRanges
  match treePathAtCursor with
  | none =>
    finishPrompt rankSnippets countTokens language options fullPrefix fullSuffix
      window snippets0 false
  | some treePath =>
    let reversedPath := treePath.reverse
    let snippets1 :=
      match reversedPath.find? (fun node => node.type == "call_expression") with
      | some callExpression =>
        match getDefinition filepath callExpression.startRow callExpression.startCol with
        | some definition => snippets0 ++ [some definition]
        | none => snippets0
      | none => snippets0
    let cursorLine := (splitOnChar newlineChar fullPrefix.toList).length - 1
    finishPrompt rankSnippets countTokens language options fullPrefix fullSuffix
      window snippets1 (shouldCompleteMultiline reversedPath cursorLine)

/-- Rebuilding a string from its character list gives the string back. -/
theorem mk_toList (s : String) : String.mk s.toList = s := by
  cases s
  rfl

/-- `splitOnChar` never returns the empty list, like JavaScript `split`. -/
theorem splitOnChar_ne_nil (c : Char) (l : List Char) : splitOnChar c l ≠ [] := by
  cases l with
  | nil => simp [splitOnChar]
  | cons x xs =>
    simp only [splitOnChar]
    split
    · simp
    · split <;> simp

/-- A list without the separator splits into itself alone. -/
theorem splitOnChar_not_mem (c : Char) (l : List Char) (h : c ∉ l) :
    splitOnChar c l = [l] := by
  induction l with
  | nil => rfl
  | cons x xs ih =>
    simp only [List.mem_cons, not_or] at h
    simp only [splitOnChar, ih h.2]
    rw [if_neg (fun hx => h.1 hx.symm)]

/-- When the separator occurs, the split has at least two pieces. -/
theorem splitOnChar_mem_two (c : Char) (l : List Char) (h : c ∈ l) :
    ∃ a b t, splitOnChar c l = a :: b :: t := by
  induction l with
  | nil => cases h
  | cons x xs ih =>
    by_cases hx : x = c
    · obtain ⟨g, gs, hS⟩ := List.exists_cons_of_ne_nil (splitOnChar_ne_nil c xs)
      exact ⟨[], g, gs, by simp [splitOnChar, hS, hx]⟩
    · have hmem : c ∈ xs := by
        rcases List.mem_cons.mp h with h1 | h2
        · exact absurd h1.symm hx
        · exact h2
      obtain ⟨a, b, t, hS2⟩ := ih hmem
      exact ⟨x :: a, b, t, by simp [splitOnChar, hS2, hx]⟩

/-- The last piece of a split whose separator does not occur is the whole
list. -/
theorem getLastPiece_splitOnChar_not_mem (c : Char) (l : List Char)
    (h : c ∉ l) : getLastPiece (splitOnChar c l) = l := by
  rw [splitOnChar_not_mem c l h]
  rfl

/-- The last piece of a split at an occurring separator: it is free of the
separator and is preceded in the original list by a separator. -/
theorem getLastPiece_splitOnChar_mem (c : Char) (l : List Char) (h : c ∈ l) :
    c ∉ getLastPiece (splitOnChar c l) ∧
    ∃ pre, l = pre ++ c :: getLastPiece (splitOnChar c l) := by
  induction l with
  | nil => cases h
  | cons x xs ih =>
    by_cases hx : x = c
    · by_cases hmem : c ∈ xs
      · obtain ⟨hnot, pre, hd⟩ := ih hmem
        obtain ⟨g, gs, hS⟩ := List.exists_cons_of_ne_nil (splitOnChar_ne_nil c xs)
        have hL : getLastPiece (splitOnChar c (x :: xs)) =
            getLastPiece (splitOnChar c xs) := by
          simp only [splitOnChar, hS]
          rw [if_pos hx]
          rfl
        rw [hL]
        refine ⟨hnot, x :: pre, ?_⟩
        show x :: xs = x :: (pre ++ c :: getLastPiece (splitOnChar c xs))
        exact congrArg (List.cons x) hd
      · have hxs := splitOnChar_not_mem c xs hmem
        have hL : getLastPiece (splitOnChar c (x :: xs)) = xs := by
          simp only [splitOnChar, hxs]
          rw [if_pos hx]
          rfl
        rw [hL]
        refine ⟨hmem, [], ?_⟩
        show x :: xs = c :: xs
        rw [hx]
    · have hmem : c ∈ xs := by
        rcases List.mem_cons.mp h with h1 | h2
        · exact absurd h1.symm hx
        · exact h2
      obtain ⟨hnot, pre, hd⟩ := ih hmem
      obtain ⟨a, b, t, hS2⟩ := splitOnChar_mem_two c xs hmem
      have hL : getLastPiece (splitOnChar c (x :: xs)) =
          getLastPiece (splitOnChar c xs) := by
        simp only [splitOnChar, hS2]
        rw [if_neg hx]
        rfl
      rw [hL]
      refine ⟨hnot, x :: pre, ?_⟩
      show x :: xs = x :: (pre ++ c :: getLastPiece (splitOnChar c xs))
      exact congrArg (List.cons x) hd

/-- A character that is absent has no first index. -/
theorem charIndexFrom_not_mem (c : Char) (l : List Char) (h : c ∉ l) :
    charIndexFrom c l = none := by
  induction l with
  | nil => rfl
  | cons x xs ih =>
    simp only [List.mem_cons, not_or] at h
    simp only [charIndexFrom, ih h.2, Option.map_none']
    rw [if_neg (fun hx => h.1 hx.symm)]

/-- `s.slice(0)` is `s` itself. -/
theorem jsSliceFrom_zero (s : String) : jsSliceFrom s 0 = s := by
  simp only [jsSliceFrom]
  rw [if_neg (by omega), min_eq_left (by positivity)]
  simp [mk_toList]

/-- The downward-index loop of `shouldCompleteMultiline` computes the
first qualifying block of the scanned list, then decides from its inner
text; `false` when no element qualifies. -/
theorem multilineScan_eq_find (cursorLine : Nat) (l : List SyntaxNode) :
    multilineScan cursorLine l =
      ((l.find? (isQualifyingBlock cursorLine)).map blockBodyIsOneLine).getD false := by
  induction l with
  | nil => rfl
  | cons node rest ih =>
    cases hq : isQualifyingBlock cursorLine node with
    | true => simp [multilineScan, hq, List.find?_cons, ih]
    | false => simp [multilineScan, hq, List.find?_cons, ih]

/-- The top pruner keeps a suffix of the line list. -/
theorem pruneTopLines_isSuffix (countTokens : String → Nat) (m : Rat)
    (ls : List String) : pruneTopLines countTokens m ls <:+ ls := by
  induction ls with
  | nil => simp [pruneTopLines]
  | cons l rest ih =>
    simp only [pruneTopLines]
    split
    · exact List.suffix_refl _
    · exact ih.trans (List.suffix_cons l rest)

/-- A larger budget never makes the top pruner keep fewer lines: the lines
kept under the smaller budget are a suffix of those kept under the
larger. -/
theorem pruneTopLines_mono (countTokens : String → Nat) {m m' : Rat}
    (h : m ≤ m') (ls : List String) :
    pruneTopLines countTokens m ls <:+ pruneTopLines countTokens m' ls := by
  induction ls with
  | nil => simp [pruneTopLines]
  | cons l rest ih =>
    simp only [pruneTopLines]
    by_cases h1 : (countTokens (joinLines (l :: rest)) : Rat) ≤ m
    · rw [if_pos h1, if_pos (h1.trans h)]
    · rw [if_neg h1]
      by_cases h2 : (countTokens (joinLines (l :: rest)) : Rat) ≤ m'
      · rw [if_pos h2]
        exact (pruneTopLines_isSuffix countTokens m rest).trans (List.suffix_cons l rest)
      · rw [if_neg h2]
        exact ih

/-- The bottom pruner's worker keeps a suffix of its (reversed) input. -/
theorem pruneBottomAux_isSuffix (countTokens : String → Nat) (m : Rat)
    (ls : List String) : pruneBottomAux countTokens m ls <:+ ls := by
  induction ls with
  | nil => simp [pruneBottomAux]
  | cons l rest ih =>
    simp only [pruneBottomAux]
    split
    · exact List.suffix_refl _
    · exact ih.trans (List.suffix_cons l rest)

/-- The bottom pruner keeps an initial run of the line list: only trailing
lines are removed. -/
theorem pruneBottomLines_isPrefix (countTokens : String → Nat) (m : Rat)
    (ls : List String) : pruneBottomLines countTokens m ls <+: ls := by
  have h := pruneBottomAux_isSuffix countTokens m ls.reverse
  have h2 := List.reverse_prefix.mpr h
  rwa [List.reverse_reverse] at h2

/-- The bottom pruner's result fits the budget whenever the empty string
does. -/
theorem pruneBottomAux_fits (countTokens : String → Nat) (m : Rat)
    (hm : (countTokens (joinLines []) : Rat) ≤ m) (ls : List String) :
    (countTokens (joinLines (pruneBottomAux countTokens m ls).reverse) : Rat) ≤ m := by
  induction ls with
  | nil => simpa [pruneBottomAux] using hm
  | cons l rest ih =>
    simp only [pruneBottomAux]
    split
    · assumption
    · exact ih

/-- The pruned suffix fits the budget whenever the empty string does. -/
theorem pruneLinesFromBottom_fits (countTokens : String → Nat) (text : String)
    (m : Rat) (hm : (countTokens "" : Rat) ≤ m) :
    (countTokens (pruneLinesFromBottom countTokens text m) : Rat) ≤ m := by
  have h := pruneBottomAux_fits countTokens m (by simpa [joinLines] using hm)
    ((linesOf text).reverse)
  simpa [pruneLinesFromBottom, pruneBottomLines] using h

/-- A sliding-window matcher returning no matches, for concrete runs. -/
def noMatches : List FileWithContents → String → Nat → Nat → List FileWithContents :=
  fun _ _ _ _ => []

/-- A ranker that keeps the candidate order, for concrete runs. -/
def keepOrder : List (Option FileWithContents) → String → List (Option FileWithContents) :=
  fun s _ => s

/-- A definition lookup that resolves nothing, for concrete runs. -/
def noDefinition : String → Nat → Nat → Option FileWithContents :=
  fun _ _ _ => none

/-- A scope lookup that always finds a scope, for concrete runs. -/
def alwaysScope : RangeInFileWithContents → Option Unit :=
  fun _ => some ()

/-- Concrete options: window size 4, window prefix percentage 1/2, budget
100, prefix percentage 1/2, suffix percentage 1/2. -/
def sampleOptions : TabAutocompleteOptions := ⟨4, 1/2, 100, 1/2, 1/2⟩

/-- C1: the claim states that the window around the cursor is the last
`slidingWindowSize * slidingWindowPrefixPercentage` characters of the
prefix followed by the first `slidingWindowSize * (1 - slidingWindowPrefixPercentage)`
characters of the suffix.  The code instead passes the suffix bound as the
start of a one-argument `slice`, which DROPS that many leading characters
of the suffix and keeps the rest.  At prefix `"abcdef"`, suffix
`"ghijkl"`, window size 4 and prefix percentage 1/2, the code produces
`"efijkl"` while the claimed window is `"efgh"`. -/
theorem C1_window_suffix_slice_divergence :
    windowAroundCursor "abcdef" "ghijkl" sampleOptions = "efijkl" ∧
    specWindowAroundCursor "abcdef" "ghijkl" sampleOptions = "efgh" ∧
    windowAroundCursor "abcdef" "ghijkl" sampleOptions ≠
      specWindowAroundCursor "abcdef" "ghijkl" sampleOptions := by
  refine ⟨?_, ?_, ?_⟩ <;> decide

/-- The recently edited range whose scope lookup returns nothing. -/
def C2badRange : RangeInFileWithContents := ⟨"bad.ts", "let x = 1", 0, 0, 0, 9⟩

/-- A recently edited range whose scope lookup succeeds. -/
def C2goodRange : RangeInFileWithContents := ⟨"good.ts", "let y = 2", 1, 0, 1, 9⟩

/-- A scope lookup failing exactly on `bad.ts`. -/
def C2scope : RangeInFileWithContents → Option Unit :=
  fun r => if r.filepath == "bad.ts" then none else some ()

/-- C2: the claim states that a range whose scope lookup returns nothing
is excluded from the candidate snippet list and that other ranges are
unaffected.  In the code, `.filter((s) => !!s)` runs on the array of
promises — promises are always truthy — so the `null` produced for the
failed range is kept and pushed into the snippet list; formatting that
`null` later throws, so the other range's snippet is lost with the whole
request. -/
theorem C2_failed_scope_not_excluded :
    recentlyEditedSnippets C2scope [C2badRange, C2goodRange] =
      [none, some ⟨"good.ts", "let y = 2"⟩] ∧
    constructAutocompletePrompt noMatches C2scope none noDefinition keepOrder
      String.length "f.ts" "p" "s" "" Typescript sampleOptions
      [C2badRange, C2goodRange] [] = none := by
  constructor <;> decide

/-- A non-block root node. -/
def C3program : SyntaxNode := ⟨"program", 0, 0, "x\n\x7b\n\x7d"⟩

/-- A qualifying block whose inner text is empty: taken alone it decides
`true`. -/
def C3outerBlock : SyntaxNode := ⟨"body", 0, 0, "\x7b\n\x7d"⟩

/-- The innermost node, a qualifying block whose inner text spans two
lines: taken alone it decides `false`. -/
def C3innerBlock : SyntaxNode := ⟨"statement_block", 1, 0, "\x7b a\nb \x7d"⟩

/-- The ancestor path root-to-leaf, as `getTreePathAtCursor` returns it. -/
def C3treePath : List SyntaxNode := [C3program, C3outerBlock, C3innerBlock]

/-- C3: the claim states that the block ancestor closest to the cursor
decides the multiline result (innermost-to-outermost walk).  But the
call-expression search `for (let node of treePath.reverse())` reverses
`treePath` in place, so `shouldCompleteMultiline` receives the
leaf-to-root path and its downward loop walks outermost-to-innermost: on
`C3treePath` at cursor line 1 the innermost qualifying block
(`C3innerBlock`, two-line body) would decide `false`, yet the pipeline
returns `true`, decided by the outermost qualifying block
(`C3outerBlock`, empty body). -/
theorem C3_reverse_mutation_outermost_decides :
    shouldCompleteMultiline C3treePath.reverse 1 = true ∧
    (((C3treePath.reverse).find? (isQualifyingBlock 1)).map blockBodyIsOneLine).getD
      false = false ∧
    (constructAutocompletePrompt noMatches alwaysScope (some C3treePath)
        noDefinition keepOrder String.length "f.ts" "x\n" "" "" Typescript
        sampleOptions [] []).map AssembledPrompt.completeMultiline = some true := by
  refine ⟨?_, ?_, ?_⟩ <;> decide

/-- C4: in the assembled result the formatted snippets (joined by one
newline) come strictly before the pruned tail of the original prefix —
the prefix is exactly the snippet block, one newline, then a suffix of the
original prefix's lines (no `if` branch drops snippets) — and the suffix
is built only from an initial run of the original suffix's lines, so it
never contains snippet content. -/
theorem C4_snippets_precede_pruned_tail
    (countTokens : String → Nat) (language : AutocompleteLanguageInfo)
    (options : TabAutocompleteOptions) (fullPrefix fullSuffix : String)
    (snippets : List FileWithContents) (completeMultiline : Bool) :
    (∃ keptPrefixLines,
      keptPrefixLines <:+ linesOf fullPrefix ∧
      (assembleStage countTokens language options fullPrefix fullSuffix snippets
          completeMultiline).prefixText =
        (if 0 < (joinLines (snippets.map (fun snippet =>
              formatExternalSnippet snippet.filepath snippet.contents language))).length
          then
            joinLines (snippets.map (fun snippet =>
              formatExternalSnippet snippet.filepath snippet.contents language))
              ++ "\n" ++ joinLines keptPrefixLines
          else joinLines keptPrefixLines)) ∧
    (∃ keptSuffixLines,
      keptSuffixLines <+: linesOf fullSuffix ∧
      (assembleStage countTokens language options fullPrefix fullSuffix snippets
          completeMultiline).suffixText = joinLines keptSuffixLines) := by
  refine ⟨⟨_, pruneTopLines_isSuffix _ _ _, rfl⟩,
    ⟨_, pruneBottomLines_isPrefix _ _ _, rfl⟩⟩

/-- C5: the suffix budget of the assembly is exactly
`min(maxPromptTokens - tokenCount(final prefix), maxSuffixPercentage * maxPromptTokens)`,
the returned suffix is the full suffix pruned from its bottom under that
budget, and (for a tokenizer counting the empty string as zero) the suffix
fits the budget whenever the budget is non-negative. -/
theorem C5_suffix_budget_and_bottom_pruning
    (countTokens : String → Nat) (language : AutocompleteLanguageInfo)
    (options : TabAutocompleteOptions) (fullPrefix fullSuffix : String)
    (snippets : List FileWithContents) (completeMultiline : Bool)
    (hempty : countTokens "" = 0) :
    (assembleStage countTokens language options fullPrefix fullSuffix snippets
        completeMultiline).suffixText =
      pruneLinesFromBottom countTokens fullSuffix
        (min ((options.maxPromptTokens : Rat)
            - (countTokens (assembleStage countTokens language options fullPrefix
                fullSuffix snippets completeMultiline).prefixText : Rat))
          (options.maxSuffixPercentage * (options.maxPromptTokens : Rat))) ∧
    (0 ≤ min ((options.maxPromptTokens : Rat)
          - (countTokens (assembleStage countTokens language options fullPrefix
              fullSuffix snippets completeMultiline).prefixText : Rat))
        (options.maxSuffixPercentage * (options.maxPromptTokens : Rat)) →
      (countTokens (assembleStage countTokens language options fullPrefix
          fullSuffix snippets completeMultiline).suffixText : Rat) ≤
        min ((options.maxPromptTokens : Rat)
            - (countTokens (assembleStage countTokens language options fullPrefix
                fullSuffix snippets completeMultiline).prefixText : Rat))
          (options.maxSuffixPercentage * (options.maxPromptTokens : Rat))) := by
  constructor
  · rfl
  · intro h
    exact pruneLinesFromBottom_fits countTokens fullSuffix _
      (by rw [hempty]; exact_mod_cast h)

/-- Closed instance of `C5_suffix_budget_and_bottom_pruning` at a length
tokenizer, `sampleOptions`, prefix `"p"`, suffix `"a\nb"` and no
snippets. -/
theorem C5_suffix_budget_and_bottom_pruning_witness :
    (assembleStage String.length Typescript sampleOptions "p" "a\nb" [] true).suffixText =
      pruneLinesFromBottom String.length "a\nb"
        (min ((sampleOptions.maxPromptTokens : Rat)
            - (String.length (assembleStage String.length Typescript sampleOptions
                "p" "a\nb" [] true).prefixText : Rat))
          (sampleOptions.maxSuffixPercentage * (sampleOptions.maxPromptTokens : Rat))) ∧
    (0 ≤ min ((sampleOptions.maxPromptTokens : Rat)
          - (String.length (assembleStage String.length Typescript sampleOptions
              "p" "a\nb" [] true).prefixText : Rat))
        (sampleOptions.maxSuffixPercentage * (sampleOptions.maxPromptTokens : Rat)) →
      (String.length (assembleStage String.length Typescript sampleOptions
          "p" "a\nb" [] true).suffixText : Rat) ≤
        min ((sampleOptions.maxPromptTokens : Rat)
            - (String.length (assembleStage String.length Typescript sampleOptions
                "p" "a\nb" [] true).prefixText : Rat))
          (sampleOptions.maxSuffixPercentage * (sampleOptions.maxPromptTokens : Rat))) :=
  C5_suffix_budget_and_bottom_pruning String.length Typescript sampleOptions
    "p" "a\nb" [] true rfl

/-- C6: for a path of more than one node, `shouldCompleteMultiline` is
decided by the first qualifying block ancestor found scanning the path
innermost-to-outermost (`treePath.reverse.find?`): it returns whether that
block's inner text spans exactly one line, and returns `false` when no
ancestor qualifies; an empty inner text counts as one line. -/
theorem C6_first_qualifying_block_decides :
    (∀ (treePath : List SyntaxNode) (cursorLine : Nat), 1 < treePath.length →
      shouldCompleteMultiline treePath cursorLine =
        (((treePath.reverse).find? (isQualifyingBlock cursorLine)).map
          blockBodyIsOneLine).getD false) ∧
    (∀ node : SyntaxNode, blockInnerText node.text = "" →
      blockBodyIsOneLine node = true) := by
  constructor
  · intro treePath cursorLine h
    unfold shouldCompleteMultiline
    rw [if_neg (by omega), multilineScan_eq_find]
  · intro node h
    simp only [blockBodyIsOneLine, h]
    rfl

/-- The two-node path of the closed `C6` instance: a program root above a
`body` block with empty inner text at line 0. -/
def C6path : List SyntaxNode := [⟨"program", 0, 0, "q"⟩, ⟨"body", 0, 0, "\x7b\x7d"⟩]

/-- Closed instance of `C6_first_qualifying_block_decides` on `C6path` at
cursor line 0: the inner `body` block qualifies, its inner text is empty,
and the heuristic returns `true`. -/
theorem C6_first_qualifying_block_decides_witness :
    1 < C6path.length ∧ shouldCompleteMultiline C6path 0 = true := by
  refine ⟨by decide, ?_⟩
  rw [C6_first_qualifying_block_decides.1 C6path 0 (by decide)]
  decide

/-- C7: when the ancestor path has exactly one node, the heuristic returns
`true` at the actual cursor line, and any assembled result of
`constructAutocompletePrompt` carries `completeMultiline = true`,
whatever the other request content and collaborators are. -/
theorem C7_length_one_path_multiline
    (slidingWindowMatcher : List FileWithContents → String → Nat → Nat → List FileWithContents)
    (getScopeAroundRange : RangeInFileWithContents → Option Unit)
    (treePath : List SyntaxNode)
    (getDefinition : String → Nat → Nat → Option FileWithContents)
    (rankSnippets : List (Option FileWithContents) → String → List (Option FileWithContents))
    (countTokens : String → Nat)
    (filepath fullPrefix fullSuffix clipboardText : String)
    (language : AutocompleteLanguageInfo) (options : TabAutocompleteOptions)
    (recentlyEditedRanges : List RangeInFileWithContents)
    (recentlyEditedDocuments : List FileWithContents)
    (hlen : treePath.length = 1) (res : AssembledPrompt)
    (hres : constructAutocompletePrompt slidingWindowMatcher getScopeAroundRange
        (some treePath) getDefinition rankSnippets countTokens filepath fullPrefix
        fullSuffix clipboardText language options recentlyEditedRanges
        recentlyEditedDocuments = some res) :
    shouldCompleteMultiline treePath
        ((splitOnChar newlineChar fullPrefix.toList).length - 1) = true ∧
    res.completeMultiline = true := by
  have hsm : ∀ cl : Nat, shouldCompleteMultiline treePath.reverse cl = true := by
    intro cl
    unfold shouldCompleteMultiline
    rw [if_pos (by rw [List.length_reverse]; exact hlen)]
  constructor
  · unfold shouldCompleteMultiline
    rw [if_pos hlen]
  · simp only [constructAutocompletePrompt, finishPrompt] at hres
    rcases Option.map_eq_some'.mp hres with ⟨ranked, hrank, hfun⟩
    rw [← hfun]
    exact hsm _

/-- The concrete one-node run for the closed `C7` instance. -/
def C7run : Option AssembledPrompt :=
  constructAutocompletePrompt noMatches alwaysScope
    (some [⟨"program", 0, 0, "x"⟩]) noDefinition keepOrder String.length
    "f.ts" "x" "" "" Typescript sampleOptions [] []

/-- Closed instance of `C7_length_one_path_multiline`: the one-node run
produces a result whose `completeMultiline` is `true`. -/
theorem C7_length_one_path_multiline_witness :
    C7run.map AssembledPrompt.completeMultiline = some true := by
  cases hrun : C7run with
  | none => exact absurd hrun (by decide)
  | some res =>
    have h := C7_length_one_path_multiline noMatches alwaysScope
      [⟨"program", 0, 0, "x"⟩] noDefinition keepOrder String.length
      "f.ts" "x" "" "" Typescript sampleOptions [] [] rfl res hrun
    simpa using h.2

/-- C8: the claim states that a path with no `.` resolves to the default
profile.  The code looks up the whole path in the table when no `.`
occurs: the dotless path `"py"` resolves to the Python profile, not the
default TypeScript profile. -/
theorem C8_dotless_known_key_not_default :
    languageForFilepath "py" = Python ∧ Python ≠ Typescript ∧
    dotChar ∉ "py".toList := by
  refine ⟨by decide, by decide, by decide⟩

/-- C8 as amended: the resolver looks up the last `.`-separated segment of
the path and falls back to the default exactly when that lookup misses;
for a dotless path the key is the whole path, and for a dotted path the
key is precisely the text after the last dot (it contains no dot and is
preceded by one). -/
theorem C8_last_dot_segment_lookup (filepath : String) :
    languageForFilepath filepath =
      (LANGUAGES.lookup (lastSegmentOnChar dotChar filepath)).getD Typescript ∧
    (dotChar ∉ filepath.toList → lastSegmentOnChar dotChar filepath = filepath) ∧
    (dotChar ∈ filepath.toList →
      dotChar ∉ (lastSegmentOnChar dotChar filepath).toList ∧
      ∃ pre, filepath.toList =
        pre ++ dotChar :: (lastSegmentOnChar dotChar filepath).toList) := by
  refine ⟨rfl, ?_, ?_⟩
  · intro h
    unfold lastSegmentOnChar
    rw [getLastPiece_splitOnChar_not_mem dotChar filepath.toList h, mk_toList]
  · intro h
    exact getLastPiece_splitOnChar_mem dotChar filepath.toList h

/-- Closed instance of `C8_last_dot_segment_lookup` at the dotless path
`"py"`. -/
theorem C8_last_dot_segment_lookup_witness :
    languageForFilepath "py" =
      (LANGUAGES.lookup (lastSegmentOnChar dotChar "py")).getD Typescript ∧
    lastSegmentOnChar dotChar "py" = "py" :=
  ⟨(C8_last_dot_segment_lookup "py").1,
    (C8_last_dot_segment_lookup "py").2.1 (by decide)⟩

/-- The concrete run for the `C9` counterexample: prefix one 6-character
line, suffix a 1-character line above a 6-character line, length
tokenizer, no snippets. -/
def C9run (options : TabAutocompleteOptions) : Option AssembledPrompt :=
  constructAutocompletePrompt noMatches alwaysScope none noDefinition keepOrder
    String.length "f.ts" "aaaaaa" "b\ncccccc" "" Typescript options [] []

/-- The token count of an assembled result: prefix plus suffix under the
length tokenizer of the `C9` runs. -/
def promptTokenTotal (res : AssembledPrompt) : Nat :=
  res.prefixText.length + res.suffixText.length

/-- C9: the claim states the prefix-plus-suffix token count is
non-decreasing in `maxPromptTokens` with everything else fixed.  It is
not: raising the budget from 11 to 12 admits the 6-token prefix line
(budget `12 * 1/2 = 6`), which shrinks the remaining suffix budget from 11
to 6, forcing the 8-token suffix down to its 1-token first line — the
total falls from 8 to 7. -/
theorem C9_total_tokens_not_monotone :
    ((⟨4, 1/2, 11, 1/2, 1⟩ : TabAutocompleteOptions).maxPromptTokens <
      (⟨4, 1/2, 12, 1/2, 1⟩ : TabAutocompleteOptions).maxPromptTokens) ∧
    (C9run ⟨4, 1/2, 11, 1/2, 1⟩).map promptTokenTotal = some 8 ∧
    (C9run ⟨4, 1/2, 12, 1/2, 1⟩).map promptTokenTotal = some 7 := by
  refine ⟨by decide, by decide, by decide⟩

/-- C9 as amended: with a non-negative `prefixPercentage`, increasing
`maxPromptTokens` (all other inputs and options fixed) never removes lines
from the pruned original prefix — the lines kept under the smaller budget
are a suffix of those kept under the larger — and the assembled prefix is
exactly the formatted snippets followed by those kept lines.  The
prefix-plus-suffix total, however, can decrease (see the counterexample):
a newly admitted prefix line can shrink the suffix budget by more tokens
than it adds. -/
theorem C9_prefix_lines_monotone
    (countTokens : String → Nat) (language : AutocompleteLanguageInfo)
    (slidingWindowSize : Nat) (slidingWindowPrefixPercentage : Rat)
    (prefixPercentage maxSuffixPercentage : Rat) (M M' : Nat)
    (fullPrefix fullSuffix : String) (snippets : List FileWithContents)
    (completeMultiline : Bool)
    (hp : 0 ≤ prefixPercentage) (hM : M ≤ M') :
    pruneTopLines countTokens
        ((M : Rat) * prefixPercentage
          - (countTokens (joinLines (snippets.map (fun snippet =>
              formatExternalSnippet snippet.filepath snippet.contents language))) : Rat))
        (linesOf fullPrefix) <:+
      pruneTopLines countTokens
        ((M' : Rat) * prefixPercentage
          - (countTokens (joinLines (snippets.map (fun snippet =>
              formatExternalSnippet snippet.filepath snippet.contents language))) : Rat))
        (linesOf fullPrefix) ∧
    ∀ m : Nat,
      (assembleStage countTokens language
          ⟨slidingWindowSize, slidingWindowPrefixPercentage, m, prefixPercentage,
            maxSuffixPercentage⟩ fullPrefix fullSuffix snippets
          completeMultiline).prefixText =
        (if 0 < (joinLines (snippets.map (fun snippet =>
              formatExternalSnippet snippet.filepath snippet.contents language))).length
          then
            joinLines (snippets.map (fun snippet =>
              formatExternalSnippet snippet.filepath snippet.contents language))
              ++ "\n" ++ joinLines (pruneTopLines countTokens
                ((m : Rat) * prefixPercentage
                  - (countTokens (joinLines (snippets.map (fun snippet =>
                      formatExternalSnippet snippet.filepath snippet.contents language))) : Rat))
                (linesOf fullPrefix))
          else joinLines (pruneTopLines countTokens
            ((m : Rat) * prefixPercentage
              - (countTokens (joinLines (snippets.map (fun snippet =>
                  formatExternalSnippet snippet.filepath snippet.contents language))) : Rat))
            (linesOf fullPrefix))) := by
  constructor
  · apply pruneTopLines_mono
    have hmul : (M : Rat) * prefixPercentage ≤ (M' : Rat) * prefixPercentage :=
      mul_le_mul_of_nonneg_right (by exact_mod_cast hM) hp
    linarith
  · intro m
    rfl

/-- Closed instance of `C9_prefix_lines_monotone` at the counterexample's
inputs with budgets 11 and 12. -/
theorem C9_prefix_lines_monotone_witness :
    pruneTopLines String.length
        (((11 : Nat) : Rat) * (1/2)
          - (String.length (joinLines (([] : List FileWithContents).map (fun snippet =>
              formatExternalSnippet snippet.filepath snippet.contents Typescript))) : Rat))
        (linesOf "aaaaaa") <:+
      pruneTopLines String.length
        (((12 : Nat) : Rat) * (1/2)
          - (String.length (joinLines (([] : List FileWithContents).map (fun snippet =>
              formatExternalSnippet snippet.filepath snippet.contents Typescript))) : Rat))
        (linesOf "aaaaaa") :=
  (C9_prefix_lines_monotone String.length Typescript 4 (1/2) (1/2) 1 11 12
    "aaaaaa" "b\ncccccc" [] false (by norm_num) (by norm_num)).1

/-- C10: in the inner-text extraction, a text with no opening brace loses
nothing at its front (`indexOf` is `-1`, so the slice starts at `0`), a
text with no closing brace loses exactly its final character
(`lastIndexOf` is `-1`, so the slice ends at `-1`, one before the end),
and the heuristic is total: it returns a boolean on every path and cursor
line. -/
theorem C10_brace_strip_edge_cases :
    (∀ text : String, openBraceChar ∉ text.toList → stripToOpenBrace text = text) ∧
    (∀ text : String, closeBraceChar ∉ text.toList →
      stripFromCloseBrace text = String.mk text.toList.dropLast) ∧
    (∀ (treePath : List SyntaxNode) (cursorLine : Nat),
      shouldCompleteMultiline treePath cursorLine = true ∨
      shouldCompleteMultiline treePath cursorLine = false) := by
  refine ⟨?_, ?_, ?_⟩
  · intro text h
    have h1 : jsIndexOf text openBraceChar = -1 := by
      unfold jsIndexOf
      rw [charIndexFrom_not_mem _ _ h]
    unfold stripToOpenBrace
    rw [h1]
    show jsSliceFrom text 0 = text
    exact jsSliceFrom_zero text
  · intro text h
    have h1 : jsLastIndexOf text closeBraceChar = -1 := by
      unfold jsLastIndexOf
      rw [charIndexFrom_not_mem _ _ (by simpa using h)]
    unfold stripFromCloseBrace
    rw [h1]
    simp only [jsSliceTo]
    rw [if_pos (by norm_num : (-1 : Int) < 0)]
    have he : (max ((text.toList.length : Int) + -1) 0).toNat = text.toList.length - 1 := by
      omega
    rw [he, ← List.dropLast_eq_take]
  · intro treePath cursorLine
    cases shouldCompleteMultiline treePath cursorLine
    · exact Or.inr rfl
    · exact Or.inl rfl

/-- Closed instance of `C10_brace_strip_edge_cases` on the brace-free text
`"abc"`: the front strip keeps it whole, the back strip removes exactly
the final character. -/
theorem C10_brace_strip_edge_cases_witness :
    stripToOpenBrace "abc" = "abc" ∧
    stripFromCloseBrace "abc" = String.mk "abc".toList.dropLast := by
  refine ⟨C10_brace_strip_edge_cases.1 "abc" (by decide),
    C10_brace_strip_edge_cases.2.1 "abc" (by decide)⟩
